import Mathlib

/-!
Verification of the staged load-shape controller and request-outcome
classification of the load-testing scripts.

The scripts configure an external load-generation framework.  The one piece
of real logic is the class `ExtremePacing(LoadTestShape)` in
`scripts/load_test_extreme.py`:

  stages = [ {"duration": 30, "users": 500,  "spawn_rate": 50},
             {"duration": 60, "users": 2000, "spawn_rate": 100},
             {"duration": 60, "users": 3000, "spawn_rate": 200},
             {"duration": 30, "users": 1000, "spawn_rate": 100} ]

  def tick(self):
      run_time = self.get_run_time()
      for stage in self.stages:
          if run_time < stage["duration"]:
              return (stage["users"], stage["spawn_rate"])
          run_time -= stage["duration"]
      return None

Elapsed run time is a real-valued clock; it is embedded as a rational
number.  The stage walk is embedded as `tickAux`, recursing over the stage
list exactly the way the Python loop updates its local `run_time`.

The request-outcome classification lives in `ExtremeUser.create_user_event`
and `NominalUser.create_user_event`: a response is marked failed exactly
when `response.status_code != 200`.
-/

/-- One entry of the `stages` table: a dict
`{"duration": d, "users": u, "spawn_rate": r}`.  The duration is kept as a
rational so that malformed (negative) configurations are expressible. -/
structure Stage where
  duration : ℚ
  users : ℕ
  spawn_rate : ℕ
deriving DecidableEq

/-- The `(stage["users"], stage["spawn_rate"])` pair a stage contributes. -/
def pairOf (s : Stage) : ℕ × ℕ := (s.users, s.spawn_rate)

/-- The loop body of `ExtremePacing.tick`: walk the stage list; if the
remaining run time is below the head stage's duration return that stage's
pair, otherwise subtract the duration (the `run_time -= stage["duration"]`
update) and continue; an exhausted list returns `None`. -/
def tickAux : List Stage → ℚ → Option (ℕ × ℕ)
  | [], _ => none
  | s :: rest, run_time =>
      if run_time < s.duration then some (s.users, s.spawn_rate)
      else tickAux rest (run_time - s.duration)

/-- The `stages` class attribute of `ExtremePacing`. -/
def ExtremePacing.stages : List Stage :=
  [⟨30, 500, 50⟩, ⟨60, 2000, 100⟩, ⟨60, 3000, 200⟩, ⟨30, 1000, 100⟩]

/-- `ExtremePacing.tick`, as a function of the elapsed run time delivered by
`self.get_run_time()`. -/
def ExtremePacing.tick (run_time : ℚ) : Option (ℕ × ℕ) :=
  tickAux ExtremePacing.stages run_time

/-- Sum of all stage durations: the total runtime of the staged plan. -/
def total_duration (stages : List Stage) : ℚ :=
  (stages.map Stage.duration).sum

/-- Cumulative duration of the first `i` stages: the lower end of stage
`i`'s window. -/
def cumBefore : List Stage → ℕ → ℚ
  | _, 0 => 0
  | [], _ + 1 => 0
  | s :: rest, i + 1 => s.duration + cumBefore rest i

/-- The outcome classification in `ExtremeUser.create_user_event`: the
request is marked failed exactly when `response.status_code != 200`. -/
def ExtremeUser.create_user_event_failed (status_code : ℕ) : Bool :=
  status_code != 200

/-- The outcome classification in `NominalUser.create_user_event`: the
request is marked failed exactly when `response.status_code != 200`. -/
def NominalUser.create_user_event_failed (status_code : ℕ) : Bool :=
  status_code != 200

/-- State-passing embedding of the method `ExtremePacing.tick`: the method
receives the object state (its `stages` table) and the clock reading, and
returns its result together with the post-state.  The body reads
`self.stages` and assigns only its local `run_time`, never a field, so the
post-state is the table unchanged. -/
def ExtremePacing.tick_method (self : List Stage) (run_time : ℚ) :
    Option (ℕ × ℕ) × List Stage :=
  (tickAux self run_time, self)

/-- The two-stage table of the spec's boundary example. -/
def boundaryStages : List Stage := [⟨30, 500, 50⟩, ⟨60, 2000, 100⟩]

/-- A malformed stage table: its first stage has a negative duration. -/
def malformedStages : List Stage := [⟨-5, 100, 10⟩, ⟨30, 500, 50⟩]

/-- A table with a zero-duration stage, used to witness C7. -/
def zeroStages : List Stage := [⟨0, 900, 90⟩, ⟨30, 500, 50⟩]

/-- A stage table with two stages carrying the same pair, refuting the
unrestricted distinct-output count. -/
def dupStages : List Stage := [⟨30, 500, 50⟩, ⟨30, 500, 50⟩]

theorem total_duration_cons (s : Stage) (rest : List Stage) :
    total_duration (s :: rest) = s.duration + total_duration rest := by
  simp [total_duration]

theorem total_duration_nonneg {stages : List Stage}
    (hd : ∀ s ∈ stages, 0 ≤ s.duration) : 0 ≤ total_duration stages := by
  induction stages with
  | nil => simp [total_duration]
  | cons s rest ih =>
    have h1 : 0 ≤ s.duration := hd s (List.mem_cons_self s rest)
    have h2 : 0 ≤ total_duration rest :=
      ih (fun x hx => hd x (List.mem_cons_of_mem s hx))
    rw [total_duration_cons]
    linarith

theorem cumBefore_nonneg {stages : List Stage}
    (hd : ∀ s ∈ stages, 0 ≤ s.duration) (i : ℕ) : 0 ≤ cumBefore stages i := by
  induction stages generalizing i with
  | nil => cases i <;> simp [cumBefore]
  | cons s rest ih =>
    cases i with
    | zero => simp [cumBefore]
    | succ j =>
      have h1 : 0 ≤ s.duration := hd s (List.mem_cons_self s rest)
      have h2 : 0 ≤ cumBefore rest j :=
        ih (fun x hx => hd x (List.mem_cons_of_mem s hx)) j
      rw [cumBefore]
      linarith

theorem cumBefore_le_total {stages : List Stage}
    (hd : ∀ s ∈ stages, 0 ≤ s.duration) (i : ℕ) (hi : i ≤ stages.length) :
    cumBefore stages i ≤ total_duration stages := by
  induction stages generalizing i with
  | nil => cases i <;> simp [cumBefore, total_duration]
  | cons s rest ih =>
    cases i with
    | zero =>
      rw [cumBefore]
      exact total_duration_nonneg hd
    | succ j =>
      have hj : j ≤ rest.length := Nat.le_of_succ_le_succ hi
      have h2 := ih (fun x hx => hd x (List.mem_cons_of_mem s hx)) j hj
      rw [cumBefore, total_duration_cons]
      linarith

theorem cumBefore_succ {stages : List Stage} (i : ℕ) (hi : i < stages.length) :
    cumBefore stages (i + 1) = cumBefore stages i + (stages.get ⟨i, hi⟩).duration := by
  induction stages generalizing i with
  | nil => simp at hi
  | cons s rest ih =>
    cases i with
    | zero => simp [cumBefore]
    | succ j =>
      have hj : j < rest.length := Nat.lt_of_succ_lt_succ hi
      have h := ih j hj
      rw [cumBefore, cumBefore, h]
      rw [show (s :: rest).get ⟨j + 1, hi⟩ = rest.get ⟨j, hj⟩ from rfl]
      ring

theorem tickAux_mem_pairs {stages : List Stage} {t : ℚ} {p : ℕ × ℕ}
    (h : tickAux stages t = some p) : p ∈ stages.map pairOf := by
  induction stages generalizing t with
  | nil => simp [tickAux] at h
  | cons s rest ih =>
    rw [tickAux] at h
    by_cases hc : t < s.duration
    · rw [if_pos hc] at h
      simp only [Option.some.injEq] at h
      subst h
      simp [pairOf]
    · rw [if_neg hc] at h
      simp only [List.map_cons, List.mem_cons]
      exact Or.inr (ih h)

theorem tickAux_window {stages : List Stage} (hd : ∀ s ∈ stages, 0 ≤ s.duration)
    (i : ℕ) (hi : i < stages.length) (t : ℚ)
    (h1 : cumBefore stages i ≤ t)
    (h2 : t < cumBefore stages i + (stages.get ⟨i, hi⟩).duration) :
    tickAux stages t = some (pairOf (stages.get ⟨i, hi⟩)) := by
  induction stages generalizing i t with
  | nil => simp at hi
  | cons s rest ih =>
    cases i with
    | zero =>
      have hlt : t < s.duration := by
        rw [cumBefore, show (s :: rest).get ⟨0, hi⟩ = s from rfl, zero_add] at h2
        exact h2
      rw [tickAux, if_pos hlt]
      rfl
    | succ j =>
      have hj : j < rest.length := Nat.lt_of_succ_lt_succ hi
      have hrest : ∀ x ∈ rest, 0 ≤ x.duration :=
        fun x hx => hd x (List.mem_cons_of_mem s hx)
      have hcb : 0 ≤ cumBefore rest j := cumBefore_nonneg hrest j
      rw [cumBefore] at h1 h2
      have hge : ¬ t < s.duration := by
        rw [not_lt]
        linarith
      rw [tickAux, if_neg hge]
      rw [show (s :: rest).get ⟨j + 1, hi⟩ = rest.get ⟨j, hj⟩ from rfl] at h2 ⊢
      exact ih hrest j hj (t - s.duration) (by linarith) (by linarith)

theorem tickAux_exists_window {stages : List Stage}
    (hd : ∀ s ∈ stages, 0 ≤ s.duration) (t : ℚ)
    (ht0 : 0 ≤ t) (ht1 : t < total_duration stages) :
    ∃ i, ∃ hi : i < stages.length,
      cumBefore stages i ≤ t ∧
      t < cumBefore stages i + (stages.get ⟨i, hi⟩).duration := by
  induction stages generalizing t with
  | nil =>
    rw [show total_duration [] = 0 from rfl] at ht1
    linarith
  | cons s rest ih =>
    by_cases hc : t < s.duration
    · refine ⟨0, Nat.succ_pos _, ?_, ?_⟩
      · rw [cumBefore]
        exact ht0
      · rw [cumBefore]
        simpa using hc
    · have hge : s.duration ≤ t := not_lt.mp hc
      have hrest : ∀ x ∈ rest, 0 ≤ x.duration :=
        fun x hx => hd x (List.mem_cons_of_mem s hx)
      have ht1' : t - s.duration < total_duration rest := by
        rw [total_duration_cons] at ht1
        linarith
      obtain ⟨j, hj, ha, hb⟩ := ih hrest (t - s.duration) (by linarith) ht1'
      refine ⟨j + 1, Nat.succ_lt_succ hj, ?_, ?_⟩
      · rw [cumBefore]
        linarith
      · rw [cumBefore]
        rw [show (s :: rest).get ⟨j + 1, Nat.succ_lt_succ hj⟩ = rest.get ⟨j, hj⟩ from rfl]
        linarith

theorem tickAux_after_total {stages : List Stage}
    (hd : ∀ s ∈ stages, 0 ≤ s.duration) {t : ℚ}
    (ht : total_duration stages ≤ t) : tickAux stages t = none := by
  induction stages generalizing t with
  | nil => rfl
  | cons s rest ih =>
    have hrest : ∀ x ∈ rest, 0 ≤ x.duration :=
      fun x hx => hd x (List.mem_cons_of_mem s hx)
    have h0 : 0 ≤ total_duration rest := total_duration_nonneg hrest
    rw [total_duration_cons] at ht
    rw [tickAux, if_neg (by rw [not_lt]; linarith)]
    exact ih hrest (by linarith)

theorem tickAux_filter_ne_zero {stages : List Stage}
    (hd : ∀ s ∈ stages, 0 ≤ s.duration) {t : ℚ} (ht : 0 ≤ t) :
    tickAux stages t = tickAux (stages.filter fun s => s.duration ≠ 0) t := by
  induction stages generalizing t with
  | nil => rfl
  | cons s rest ih =>
    have hrest : ∀ x ∈ rest, 0 ≤ x.duration :=
      fun x hx => hd x (List.mem_cons_of_mem s hx)
    by_cases hz : s.duration = 0
    · have hnot : ¬ t < s.duration := by
        rw [hz, not_lt]
        exact ht
      rw [tickAux, if_neg hnot, hz, sub_zero,
        List.filter_cons_of_neg (by simp [hz])]
      exact ih hrest ht
    · rw [List.filter_cons_of_pos (by simp [hz]), tickAux, tickAux]
      by_cases hc : t < s.duration
      · rw [if_pos hc, if_pos hc]
      · rw [if_neg hc, if_neg hc]
        have hge : s.duration ≤ t := not_lt.mp hc
        exact ih hrest (by linarith)

/-- C1: for every elapsed time `t` with `0 ≤ t < total_duration`, there is a
stage whose cumulative-duration window `[cumBefore i, cumBefore i + dᵢ)`
contains `t`; `ExtremePacing.tick t` returns exactly that stage's
`(users, spawn_rate)` pair, and any other time `t2` inside the same stage's
window yields the same result. -/
theorem ExtremePacing.tick_window (t : ℚ) (ht0 : 0 ≤ t)
    (ht1 : t < total_duration ExtremePacing.stages) :
    ∃ i, ∃ hi : i < ExtremePacing.stages.length,
      cumBefore ExtremePacing.stages i ≤ t ∧
      t < cumBefore ExtremePacing.stages i +
        (ExtremePacing.stages.get ⟨i, hi⟩).duration ∧
      ExtremePacing.tick t = some (pairOf (ExtremePacing.stages.get ⟨i, hi⟩)) ∧
      ∀ t2 : ℚ, cumBefore ExtremePacing.stages i ≤ t2 →
        t2 < cumBefore ExtremePacing.stages i +
          (ExtremePacing.stages.get ⟨i, hi⟩).duration →
        ExtremePacing.tick t2 = ExtremePacing.tick t := by
  have hd : ∀ s ∈ ExtremePacing.stages, 0 ≤ s.duration := by decide
  obtain ⟨i, hi, h1, h2⟩ := tickAux_exists_window hd t ht0 ht1
  have hmain := tickAux_window hd i hi t h1 h2
  refine ⟨i, hi, h1, h2, hmain, ?_⟩
  intro t2 h1' h2'
  have h2main := tickAux_window hd i hi t2 h1' h2'
  rw [ExtremePacing.tick, ExtremePacing.tick, hmain, h2main]

/-- C1 witness: at `t = 45` the hypotheses hold and the windowed result is
delivered. -/
theorem ExtremePacing.tick_window_witness :
    (0 : ℚ) ≤ 45 ∧ (45 : ℚ) < total_duration ExtremePacing.stages ∧
    (∃ i, ∃ hi : i < ExtremePacing.stages.length,
      cumBefore ExtremePacing.stages i ≤ 45 ∧
      (45 : ℚ) < cumBefore ExtremePacing.stages i +
        (ExtremePacing.stages.get ⟨i, hi⟩).duration ∧
      ExtremePacing.tick 45 = some (pairOf (ExtremePacing.stages.get ⟨i, hi⟩)) ∧
      ∀ t2 : ℚ, cumBefore ExtremePacing.stages i ≤ t2 →
        t2 < cumBefore ExtremePacing.stages i +
          (ExtremePacing.stages.get ⟨i, hi⟩).duration →
        ExtremePacing.tick t2 = ExtremePacing.tick 45) :=
  ⟨by decide, by norm_num [total_duration, ExtremePacing.stages],
    ExtremePacing.tick_window 45 (by decide)
      (by norm_num [total_duration, ExtremePacing.stages])⟩

/-- C2: for every elapsed time at or past the sum of all stage durations,
`ExtremePacing.tick` returns the terminal signal `none`; no
`(users, spawn_rate)` target is produced any more. -/
theorem ExtremePacing.tick_terminal (t : ℚ)
    (ht : total_duration ExtremePacing.stages ≤ t) :
    ExtremePacing.tick t = none := by
  have hd : ∀ s ∈ ExtremePacing.stages, 0 ≤ s.duration := by decide
  exact tickAux_after_total hd ht

/-- C2 witness: the total duration is at most `200`, and `tick 200` is the
terminal signal. -/
theorem ExtremePacing.tick_terminal_witness :
    total_duration ExtremePacing.stages ≤ 200 ∧ ExtremePacing.tick 200 = none :=
  ⟨by norm_num [total_duration, ExtremePacing.stages],
    ExtremePacing.tick_terminal 200
      (by norm_num [total_duration, ExtremePacing.stages])⟩

/-- C3: at an exact stage boundary the tick belongs to the next stage
(strict less-than): with stages `[(30,500,50), (60,2000,100)]` the walk
returns `(500,50)` at `t = 29`, `(2000,100)` at `t = 30` and `t = 89`, and
the terminal signal at `t = 90` since no stage remains. -/
theorem tickAux_stage_boundary :
    tickAux boundaryStages 29 = some (500, 50) ∧
    tickAux boundaryStages 30 = some (2000, 100) ∧
    tickAux boundaryStages 89 = some (2000, 100) ∧
    tickAux boundaryStages 90 = none := by
  refine ⟨by decide, ?_, ?_, ?_⟩ <;>
    norm_num [tickAux, boundaryStages]

/-- C4 counterexample: nothing in the code validates the stage table, so a
table with a negative-duration stage is not a startup-time fatal condition:
the very first tick on the malformed table already produces a
`(users, spawn_rate)` traffic target instead of surfacing an error. -/
theorem malformedStages_generate_traffic :
    tickAux malformedStages 0 = some (500, 50) := by
  norm_num [tickAux, malformedStages]

/-- C4 amended: there is no startup-time validation of the stage table; the
stage walk accepts a malformed table (negative duration) without any error
and keeps producing traffic targets — here the second stage's pair for the
whole span `0 ≤ t < 25`. -/
theorem malformedStages_no_startup_check (t : ℚ) (ht0 : 0 ≤ t) (ht1 : t < 25) :
    tickAux malformedStages t = some (500, 50) := by
  have h1 : ¬ t < (-5 : ℚ) := by rw [not_lt]; linarith
  have h2 : t - (-5 : ℚ) < 30 := by linarith
  rw [malformedStages, tickAux, if_neg h1, tickAux, if_pos h2]

/-- C4 amended witness: at `t = 10` the malformed table still yields a
traffic target. -/
theorem malformedStages_no_startup_check_witness :
    (0 : ℚ) ≤ 10 ∧ (10 : ℚ) < 25 ∧
    tickAux malformedStages 10 = some (500, 50) :=
  ⟨by decide, by decide, malformedStages_no_startup_check 10 (by decide) (by decide)⟩

/-- C5: in both the extreme and the nominal profile a recorded response is
marked failed exactly when its status code differs from `200`; in
particular `200` is never marked failed while `404`, `500` and `503`
always are. -/
theorem create_user_event_failure_classification (status_code : ℕ) :
    (ExtremeUser.create_user_event_failed status_code = true ↔ status_code ≠ 200) ∧
    (NominalUser.create_user_event_failed status_code = true ↔ status_code ≠ 200) ∧
    ExtremeUser.create_user_event_failed 200 = false ∧
    NominalUser.create_user_event_failed 200 = false ∧
    ExtremeUser.create_user_event_failed 404 = true ∧
    ExtremeUser.create_user_event_failed 500 = true ∧
    ExtremeUser.create_user_event_failed 503 = true ∧
    NominalUser.create_user_event_failed 404 = true ∧
    NominalUser.create_user_event_failed 500 = true ∧
    NominalUser.create_user_event_failed 503 = true := by
  refine ⟨?_, ?_, by decide, by decide, by decide, by decide, by decide,
    by decide, by decide, by decide⟩ <;>
    simp [ExtremeUser.create_user_event_failed,
      NominalUser.create_user_event_failed, bne_iff_ne]

/-- C7: for nonnegative durations and nonnegative elapsed time, the stage
walk behaves as if every zero-duration stage were deleted (its threshold
check fails at once and the walk falls through); consequently the pair of a
zero-duration stage is never returned, provided no positive-duration stage
carries the same pair. -/
theorem tickAux_skips_zero_duration (stages : List Stage) (t : ℚ)
    (hd : ∀ s ∈ stages, 0 ≤ s.duration) (ht : 0 ≤ t) :
    tickAux stages t = tickAux (stages.filter fun s => s.duration ≠ 0) t ∧
    ∀ s ∈ stages, s.duration = 0 →
      (∀ s2 ∈ stages, pairOf s2 = pairOf s → s2.duration = 0) →
      tickAux stages t ≠ some (pairOf s) := by
  refine ⟨tickAux_filter_ne_zero hd ht, ?_⟩
  intro s hs hz hall hcontra
  rw [tickAux_filter_ne_zero hd ht] at hcontra
  have hmem := tickAux_mem_pairs hcontra
  obtain ⟨s2, hs2, hps⟩ := List.mem_map.mp hmem
  rw [List.mem_filter] at hs2
  have hz2 : s2.duration = 0 := hall s2 hs2.1 hps
  have : s2.duration ≠ 0 := by simpa using hs2.2
  exact this hz2

/-- C7 witness: on a concrete table with a zero-duration first stage and at
`t = 3`, the walk equals the walk on the filtered table and never returns
the zero-duration stage's pair. -/
theorem tickAux_skips_zero_duration_witness :
    (∀ s ∈ zeroStages, 0 ≤ s.duration) ∧ (0 : ℚ) ≤ 3 ∧
    (tickAux zeroStages 3 = tickAux (zeroStages.filter fun s => s.duration ≠ 0) 3 ∧
      ∀ s ∈ zeroStages, s.duration = 0 →
        (∀ s2 ∈ zeroStages, pairOf s2 = pairOf s → s2.duration = 0) →
        tickAux zeroStages 3 ≠ some (pairOf s)) :=
  ⟨by decide, by decide, tickAux_skips_zero_duration zeroStages 3 (by decide) (by decide)⟩

/-- C8: the stage walk has no failure mode: for every elapsed time it
either returns the terminal signal or the `(users, spawn_rate)` value of
one of the configured stages. -/
theorem ExtremePacing.tick_no_failure_mode (t : ℚ) :
    ExtremePacing.tick t = none ∨
    ∃ s ∈ ExtremePacing.stages, ExtremePacing.tick t = some (s.users, s.spawn_rate) := by
  cases h : ExtremePacing.tick t with
  | none => exact Or.inl rfl
  | some p =>
    right
    have hmem := tickAux_mem_pairs h
    obtain ⟨s, hs, hps⟩ := List.mem_map.mp hmem
    refine ⟨s, hs, ?_⟩
    rw [← hps]
    rfl

/-- C9: `tick` is a pure, deterministic function of the elapsed time and
the stage table: an invocation leaves the table untouched, and a second
invocation at the same elapsed time on the post-state returns the same
result and again leaves the table unchanged. -/
theorem ExtremePacing.tick_method_pure (self : List Stage) (t : ℚ) :
    (ExtremePacing.tick_method self t).2 = self ∧
    (ExtremePacing.tick_method (ExtremePacing.tick_method self t).2 t).1 =
      (ExtremePacing.tick_method self t).1 ∧
    (ExtremePacing.tick_method (ExtremePacing.tick_method self t).2 t).2 = self :=
  ⟨rfl, rfl, rfl⟩

/-- C10: with the configured extreme-profile table every tick result is the
terminal signal or one of the four configured pairs, so a returned user
target never exceeds `3000` and a returned spawn rate never exceeds
`200`. -/
theorem ExtremePacing.tick_range (t : ℚ) :
    (ExtremePacing.tick t = none ∨ ExtremePacing.tick t = some (500, 50) ∨
      ExtremePacing.tick t = some (2000, 100) ∨
      ExtremePacing.tick t = some (3000, 200) ∨
      ExtremePacing.tick t = some (1000, 100)) ∧
    ∀ u r : ℕ, ExtremePacing.tick t = some (u, r) → u ≤ 3000 ∧ r ≤ 200 := by
  have hmain : ExtremePacing.tick t = none ∨ ExtremePacing.tick t = some (500, 50) ∨
      ExtremePacing.tick t = some (2000, 100) ∨
      ExtremePacing.tick t = some (3000, 200) ∨
      ExtremePacing.tick t = some (1000, 100) := by
    cases h : ExtremePacing.tick t with
    | none => exact Or.inl rfl
    | some p =>
      have hmem := tickAux_mem_pairs h
      rw [ExtremePacing.stages] at hmem
      simp only [List.map_cons, List.map_nil, List.mem_cons,
        List.not_mem_nil, or_false] at hmem
      rcases hmem with h1 | h1 | h1 | h1 <;>
        simp [pairOf] at h1 <;> simp [h1]
  refine ⟨hmain, ?_⟩
  intro u r hur
  rw [hur] at hmain
  rcases hmain with h | h | h | h | h
  · simp at h
  all_goals
    simp only [Option.some.injEq, Prod.mk.injEq] at h
    obtain ⟨hu, hr⟩ := h
    subst hu
    subst hr
    exact ⟨by norm_num, by norm_num⟩

/-- C10 witness: at `t = 0` the result is the first configured pair and the
bound conclusion is delivered for it. -/
theorem ExtremePacing.tick_range_witness :
    ExtremePacing.tick 0 = some (500, 50) ∧ 500 ≤ 3000 ∧ 50 ≤ 200 :=
  ⟨by decide, (ExtremePacing.tick_range 0).2 500 50 (by decide)⟩

/-- C6 counterexample: for the table with two stages both configured as
`(30, 500, 50)` and total duration `60`, only one distinct pair is ever
returned over `[0, 60)`, not two, so the distinct-output count does not
equal the stage count for every table. -/
theorem dupStages_distinct_output_count :
    ({p : ℕ × ℕ | ∃ t : ℚ, 0 ≤ t ∧ t < total_duration dupStages ∧
        tickAux dupStages t = some p}).ncard ≠ dupStages.length := by
  have hset : {p : ℕ × ℕ | ∃ t : ℚ, 0 ≤ t ∧ t < total_duration dupStages ∧
      tickAux dupStages t = some p} = {(500, 50)} := by
    ext p
    simp only [Set.mem_setOf_eq, Set.mem_singleton_iff]
    constructor
    · rintro ⟨t, ht0, ht1, htick⟩
      have hmem := tickAux_mem_pairs htick
      rw [dupStages] at hmem
      simpa [pairOf] using hmem
    · rintro rfl
      refine ⟨0, le_refl 0, ?_, by decide⟩
      norm_num [total_duration, dupStages]
  rw [hset, Set.ncard_singleton]
  rw [show dupStages.length = 2 from rfl]
  omega

/-- C6 amended: for a stage table with positive durations and pairwise
distinct `(users, spawn_rate)` pairs, the set of pairs returned by the walk
over `[0, total_duration)` has exactly as many elements as the table has
stages. -/
theorem distinct_output_count_eq_stage_count (stages : List Stage)
    (hpos : ∀ s ∈ stages, 0 < s.duration)
    (hnodup : (stages.map pairOf).Nodup) :
    ({p : ℕ × ℕ | ∃ t : ℚ, 0 ≤ t ∧ t < total_duration stages ∧
        tickAux stages t = some p}).ncard = stages.length := by
  have hd : ∀ s ∈ stages, 0 ≤ s.duration := fun s hs => (hpos s hs).le
  have hset : {p : ℕ × ℕ | ∃ t : ℚ, 0 ≤ t ∧ t < total_duration stages ∧
      tickAux stages t = some p} = ↑(stages.map pairOf).toFinset := by
    ext p
    simp only [Set.mem_setOf_eq, Finset.coe_sort_coe, Finset.mem_coe,
      List.mem_toFinset]
    constructor
    · rintro ⟨t, _, _, htick⟩
      exact tickAux_mem_pairs htick
    · intro hp
      obtain ⟨s, hs, hps⟩ := List.mem_map.mp hp
      obtain ⟨⟨i, hi⟩, hget⟩ := List.get_of_mem hs
      have hposi : 0 < (stages.get ⟨i, hi⟩).duration := by
        rw [hget]
        exact hpos s hs
      have hcb0 : 0 ≤ cumBefore stages i := cumBefore_nonneg hd i
      have hsucc := cumBefore_succ i hi
      have hle := cumBefore_le_total hd (i + 1) hi
      refine ⟨cumBefore stages i, hcb0, ?_, ?_⟩
      · linarith
      · have hw := tickAux_window hd i hi (cumBefore stages i) le_rfl (by linarith)
        rw [hw, hget, hps]
  rw [hset, Set.ncard_coe_Finset, List.toFinset_card_of_nodup hnodup,
    List.length_map]

/-- C6 amended witness: the configured extreme table has positive durations
and pairwise distinct pairs, and its distinct-output count over the run is
its stage count. -/
theorem distinct_output_count_eq_stage_count_witness :
    (∀ s ∈ ExtremePacing.stages, 0 < s.duration) ∧
    (ExtremePacing.stages.map pairOf).Nodup ∧
    ({p : ℕ × ℕ | ∃ t : ℚ, 0 ≤ t ∧ t < total_duration ExtremePacing.stages ∧
        tickAux ExtremePacing.stages t = some p}).ncard =
      ExtremePacing.stages.length :=
  ⟨by decide, by decide,
    distinct_output_count_eq_stage_count ExtremePacing.stages (by decide) (by decide)⟩

example : ExtremePacing.tick 0 = some (500, 50) := by decide
example : ExtremePacing.tick 29 = some (500, 50) := by decide
example : ExtremePacing.tick 30 = some (2000, 100) := by
  norm_num [ExtremePacing.tick, tickAux, ExtremePacing.stages]
example : ExtremePacing.tick 90 = some (3000, 200) := by
  norm_num [ExtremePacing.tick, tickAux, ExtremePacing.stages]
example : ExtremePacing.tick 150 = some (1000, 100) := by
  norm_num [ExtremePacing.tick, tickAux, ExtremePacing.stages]
example : ExtremePacing.tick 180 = none := by
  norm_num [ExtremePacing.tick, tickAux, ExtremePacing.stages]
example : ExtremePacing.tick (359/2) = some (1000, 100) := by
  norm_num [ExtremePacing.tick, tickAux, ExtremePacing.stages]
example : total_duration ExtremePacing.stages = 180 := by
  norm_num [total_duration, ExtremePacing.stages]
example : cumBefore ExtremePacing.stages 2 = 90 := by
  norm_num [cumBefore, ExtremePacing.stages]
